import Mathlib

/-!
Shallow embedding of the kernel/covariance and acquisition-function core of
the BayesianOptimization repository (`help_functions.py`), together with
proofs of the specification claims about it.

Python floats are modelled as real numbers.  Where a claim is specifically
about IEEE-754 special values (division by zero producing infinities or NaN,
as in the bulk acquisition functions), floats are modelled by the type `FVal`
below: an exact real together with the special values `+inf`, `-inf`, `NaN`.
Signed zero is not modelled (`0` stands for `+0.0`, which is what
`numpy.sqrt(0.0)` produces, the only way a zero denominator arises here).
-/

set_option linter.unusedVariables false

namespace BayesOpt

/-! ### Vector arithmetic (numpy 1-D operations on equal-length vectors) -/

/-- `numpy.dot` of two 1-D arrays: sum of elementwise products. -/
def dot (x1 x2 : List ℝ) : ℝ :=
  (List.zipWith (· * ·) x1 x2).sum

/-- Elementwise subtraction `x1 - x2` of two equal-length 1-D arrays. -/
def vsub (x1 x2 : List ℝ) : List ℝ :=
  List.zipWith (· - ·) x1 x2

/-! ### The kernel library (`class kernels`), parameters `t`, `l` -/

namespace kernels

/-- `kernels.squared_exp`:
`(self.t**2) * exp(-numpy.dot(x1 - x2, x1 - x2) / (2 * self.l**2))`. -/
noncomputable def squared_exp (t l : ℝ) (x1 x2 : List ℝ) : ℝ :=
  t ^ 2 * Real.exp (-dot (vsub x1 x2) (vsub x1 x2) / (2 * l ^ 2))

/-- `kernels.ARD_matern`:
`r2 = numpy.dot(x1 - x2, x1 - x2) / (self.l**2)` and then
`(self.t**2) * (1 + sqrt(5*r2) + (5/3)*r2) * exp(-sqrt(5*r2))`. -/
noncomputable def ARD_matern (t l : ℝ) (x1 x2 : List ℝ) : ℝ :=
  t ^ 2 * (1 + Real.sqrt (5 * (dot (vsub x1 x2) (vsub x1 x2) / l ^ 2))
      + (5 / 3) * (dot (vsub x1 x2) (vsub x1 x2) / l ^ 2))
    * Real.exp (-Real.sqrt (5 * (dot (vsub x1 x2) (vsub x1 x2) / l ^ 2)))

/-- `kernels.trivial`: `self.t * numpy.dot(x1, x2)`. -/
def trivial (t : ℝ) (x1 x2 : List ℝ) : ℝ :=
  t * dot x1 x2

end kernels

/-! ### Basic lemmas about `dot` and `vsub` -/

theorem dot_self_eq_sum_sq (v : List ℝ) :
    dot v v = (v.map (fun a => a ^ 2)).sum := by
  induction v with
  | nil => simp [dot]
  | cons a v ih => simp [dot, List.zipWith_cons_cons] at ih ⊢; rw [ih]; ring_nf

theorem dot_self_nonneg (v : List ℝ) : 0 ≤ dot v v := by
  rw [dot_self_eq_sum_sq]
  apply List.sum_nonneg
  intro x hx
  obtain ⟨a, _, rfl⟩ := List.mem_map.mp hx
  positivity

theorem vsub_self (x : List ℝ) : vsub x x = x.map (fun _ => 0) := by
  induction x with
  | nil => simp [vsub]
  | cons a x ih => simp [vsub, List.zipWith_cons_cons] at ih ⊢

theorem dot_vsub_self (x : List ℝ) : dot (vsub x x) (vsub x x) = 0 := by
  rw [vsub_self, dot_self_eq_sum_sq]
  induction x with
  | nil => simp
  | cons a x ih => simp [ih]

/-! ### The covariance builder (`covariance`)

A numpy argument is either a bare 1-D vector or a 2-D matrix (`NpArr`).
The `try X.shape[1] except: X = X.reshape((1, len(X)))` normalization turns
a bare vector into a one-row matrix (`normalize`).  The fast-mode loop
writes into `numpy.zeros(len(X1))` at the indices `range(len(X2))`; an
out-of-range row read or write is an `IndexError`, modelled as `none`. -/

inductive NpArr where
  | vec (v : List ℝ)
  | mat (m : List (List ℝ))

/-- The reshape-on-1-D-input normalization at the top of `covariance`. -/
def normalize : NpArr → List (List ℝ)
  | .vec v => [v]
  | .mat m => m

/-- `M[i] = x` on a 1-D buffer: `IndexError` (`none`) when out of range. -/
def setIdx (M : List ℝ) (i : ℕ) (x : ℝ) : Option (List ℝ) :=
  if i < M.length then some (M.set i x) else none

/-- The fast-mode loop body of `covariance`:
`for row in idxs: M[row] = kernel(X1[row, :], X2[row, :])`,
reading `X1[row]`, then `X2[row]`, then storing — each step an
`IndexError` (`none`) when the index is out of range. -/
def fastLoop (kernel : List ℝ → List ℝ → ℝ) (A B : List (List ℝ)) :
    List ℕ → List ℝ → Option (List ℝ)
  | [], M => some M
  | i :: rest, M =>
      match A.get? i with
      | none => none
      | some a =>
          match B.get? i with
          | none => none
          | some b =>
              match setIdx M i (kernel a b) with
              | none => none
              | some M1 => fastLoop kernel A B rest M1

/-- `covariance(X1, X2, kernel, fast)`.  Full mode fills
`numpy.zeros((len(X1), len(X2)))` with `kernel(X1[row1,:], X2[row2,:])` over
all index pairs (always in range, so never fails); fast mode runs the loop
above on `numpy.zeros(len(X1))` over `range(len(X2))`. -/
def covariance (X1 X2 : NpArr) (kernel : List ℝ → List ℝ → ℝ)
    (fast : Bool) : Option NpArr :=
  let A := normalize X1
  let B := normalize X2
  if fast then
    (fastLoop kernel A B (List.range B.length)
      (List.replicate A.length 0)).map NpArr.vec
  else
    some (NpArr.mat (A.map fun a => B.map fun b => kernel a b))

/-- `sample_covariance(X1, sample, kernel)`: a length-`len(X1)` vector with
entry `i = kernel(X1[i, :], sample)`. -/
def sample_covariance (X1 : List (List ℝ)) (sample : List ℝ)
    (kernel : List ℝ → List ℝ → ℝ) : List ℝ :=
  X1.map fun a => kernel a sample

/-! ### IEEE-754 values: exact reals plus `+inf`, `-inf`, `NaN`

Used for the bulk acquisition functions, whose specification claims concern
division by zero and non-finite scores.  Arithmetic on `fin` values is exact
(rounding is not modelled; the claims are about special values, not
precision).  Signed zero is collapsed to `+0.0`. -/

inductive FVal where
  | fin (x : ℝ)
  | pinf
  | ninf
  | nan

namespace FVal

/-- IEEE subtraction. -/
noncomputable def sub : FVal → FVal → FVal
  | nan, _ => nan
  | _, nan => nan
  | fin a, fin b => fin (a - b)
  | fin _, pinf => ninf
  | fin _, ninf => pinf
  | pinf, fin _ => pinf
  | ninf, fin _ => ninf
  | pinf, ninf => pinf
  | ninf, pinf => ninf
  | pinf, pinf => nan
  | ninf, ninf => nan

/-- IEEE division (zero denominators are `+0.0`). -/
noncomputable def div : FVal → FVal → FVal
  | nan, _ => nan
  | _, nan => nan
  | fin a, fin b =>
      if b ≠ 0 then fin (a / b)
      else if 0 < a then pinf
      else if a < 0 then ninf
      else nan
  | fin _, pinf => fin 0
  | fin _, ninf => fin 0
  | pinf, fin b => if 0 ≤ b then pinf else ninf
  | ninf, fin b => if 0 ≤ b then ninf else pinf
  | pinf, pinf => nan
  | pinf, ninf => nan
  | ninf, pinf => nan
  | ninf, ninf => nan

/-- IEEE multiplication. -/
noncomputable def mul : FVal → FVal → FVal
  | nan, _ => nan
  | _, nan => nan
  | fin a, fin b => fin (a * b)
  | fin a, pinf => if 0 < a then pinf else if a < 0 then ninf else nan
  | fin a, ninf => if 0 < a then ninf else if a < 0 then pinf else nan
  | pinf, fin b => if 0 < b then pinf else if b < 0 then ninf else nan
  | ninf, fin b => if 0 < b then ninf else if b < 0 then pinf else nan
  | pinf, pinf => pinf
  | pinf, ninf => ninf
  | ninf, pinf => ninf
  | ninf, ninf => pinf

/-- IEEE addition. -/
noncomputable def add : FVal → FVal → FVal
  | nan, _ => nan
  | _, nan => nan
  | fin a, fin b => fin (a + b)
  | fin _, pinf => pinf
  | fin _, ninf => ninf
  | pinf, fin _ => pinf
  | ninf, fin _ => ninf
  | pinf, pinf => pinf
  | ninf, ninf => ninf
  | pinf, ninf => nan
  | ninf, pinf => nan

/-- `numpy.sqrt`: NaN on negative input, `+inf` at `+inf`. -/
noncomputable def sqrt : FVal → FVal
  | nan => nan
  | fin x => if x < 0 then nan else fin (Real.sqrt x)
  | pinf => pinf
  | ninf => nan

/-- The comparison `v > 0` (as in the numpy mask `var > 0`); any comparison
with NaN is false. -/
noncomputable def gtZero : FVal → Bool
  | fin x => if 0 < x then true else false
  | pinf => true
  | _ => false

/-- `scipy.stats.norm.cdf`, extended to special values the way scipy
evaluates them: `cdf(+inf) = 1.0`, `cdf(-inf) = 0.0`, `cdf(nan) = nan`.
On finite arguments it is the abstract standard normal CDF `Φ`. -/
def cdf (Φ : ℝ → ℝ) : FVal → FVal
  | fin z => fin (Φ z)
  | pinf => fin 1
  | ninf => fin 0
  | nan => nan

/-- `scipy.stats.norm.pdf`, extended to special values the way scipy
evaluates them: `pdf(±inf) = 0.0`, `pdf(nan) = nan`.  On finite arguments it
is the abstract standard normal density `φ`. -/
def pdf (φ : ℝ → ℝ) : FVal → FVal
  | fin z => fin (φ z)
  | pinf => fin 0
  | ninf => fin 0
  | nan => nan

end FVal

/-! ### The acquisition library (`class acquisition`), parameter `kappa`

The single-point family consults an external GP through
`gp.sample_predict(x) -> (mean, var)`, modelled as a function
`gp : α → ℝ × ℝ` over an arbitrary point type `α`.  `Φ`/`φ` (scipy's
`norm.cdf`/`norm.pdf`) are external statistics primitives, passed as
abstract total functions on the reals. -/

namespace acquisition

/-- `acquisition.UCB`: `mean + self.kappa * sqrt(var)`.  Takes `ymax` in its
interface (as in the source) but never reads it. -/
noncomputable def UCB {α : Type} (kappa : ℝ) (x : α) (gp : α → ℝ × ℝ)
    (ymax : ℝ) : ℝ :=
  (gp x).1 + kappa * Real.sqrt (gp x).2

/-- `acquisition.EI`: returns `0` when `var == 0`, otherwise
`(mean - ymax) * norm.cdf(Z) + sqrt(var) * norm.pdf(Z)` with
`Z = (mean - ymax)/sqrt(var)`. -/
noncomputable def EI {α : Type} (Φ φ : ℝ → ℝ) (x : α) (gp : α → ℝ × ℝ)
    (ymax : ℝ) : ℝ :=
  if (gp x).2 = 0 then 0
  else ((gp x).1 - ymax) * Φ (((gp x).1 - ymax) / Real.sqrt (gp x).2)
    + Real.sqrt (gp x).2 * φ (((gp x).1 - ymax) / Real.sqrt (gp x).2)

/-- `acquisition.PoI`: returns `1` when `var == 0`, otherwise
`norm.cdf((mean - ymax)/sqrt(var))`. -/
noncomputable def PoI {α : Type} (Φ : ℝ → ℝ) (x : α) (gp : α → ℝ × ℝ)
    (ymax : ℝ) : ℝ :=
  if (gp x).2 = 0 then 1
  else Φ (((gp x).1 - ymax) / Real.sqrt (gp x).2)

/-- `acquisition.full_EI`: `ei = numpy.zeros(len(mean))`;
`var = numpy.sqrt(var)`; `Z = (mean[var > 0] - ymax)/var[var > 0]`;
`ei[var > 0] = (mean[var > 0] - ymax) * norm.cdf(Z) + var[var > 0] * norm.pdf(Z)`.
The masked assignment is elementwise over the aligned index sets, so per
index it is: the EI formula where `sqrt(var_i) > 0`, the pre-filled `0.0`
elsewhere. -/
noncomputable def full_EI (Φ φ : ℝ → ℝ) (ymax : FVal) (mean var : List FVal) :
    List FVal :=
  (mean.zip (var.map FVal.sqrt)).map fun p =>
    if p.2.gtZero then
      ((p.1.sub ymax).mul (FVal.cdf Φ ((p.1.sub ymax).div p.2))).add
        (p.2.mul (FVal.pdf φ ((p.1.sub ymax).div p.2)))
    else FVal.fin 0

/-- `acquisition.full_PoI`: `var = numpy.sqrt(var)`;
`gamma = (mean - ymax)/var`; returns `norm.cdf(gamma)`.  No guard on
zero variance: the division happens at every index. -/
noncomputable def full_PoI (Φ : ℝ → ℝ) (ymax : FVal) (mean var : List FVal) :
    List FVal :=
  (mean.zip (var.map FVal.sqrt)).map fun p =>
    FVal.cdf Φ ((p.1.sub ymax).div p.2)

end acquisition

/-! ### Behaviour of the fast-mode loop -/

/-- Running the fast-mode loop over the index range `[s, s+n)` succeeds when
all those indices are in range for `A`, `B` and the buffer, leaves the other
buffer entries unchanged, and stores `kernel(A[j], B[j])` at each visited
`j`. -/
theorem fastLoop_range_ok (kernel : List ℝ → List ℝ → ℝ)
    (A B : List (List ℝ)) (n : ℕ) :
    ∀ (s : ℕ) (M : List ℝ), s + n ≤ A.length → s + n ≤ B.length →
      s + n ≤ M.length →
      ∃ M2, fastLoop kernel A B (List.range' s n) M = some M2 ∧
        M2.length = M.length ∧
        (∀ j, (j < s ∨ s + n ≤ j) → M2.getD j 0 = M.getD j 0) ∧
        (∀ j, s ≤ j → j < s + n →
          M2.getD j 0 = kernel (A.getD j []) (B.getD j [])) := by
  induction n with
  | zero =>
      intro s M hA hB hM
      exact ⟨M, rfl, rfl, fun j _ => rfl,
        fun j h1 h2 => (False.elim (by omega))⟩
  | succ n ih =>
      intro s M hA hB hM
      have hsA : s < A.length := by omega
      have hsB : s < B.length := by omega
      have hsM : s < M.length := by omega
      have ha : A.get? s = some (A.getD s []) := by
        simp [List.getD_eq_getElem?_getD, List.getElem?_eq_getElem hsA]
      have hb : B.get? s = some (B.getD s []) := by
        simp [List.getD_eq_getElem?_getD, List.getElem?_eq_getElem hsB]
      obtain ⟨M2, hrun, hlen, hout, hin⟩ :=
        ih (s + 1) (M.set s (kernel (A.getD s []) (B.getD s [])))
          (by omega) (by omega) (by simp; omega)
      refine ⟨M2, ?_, hlen.trans (List.length_set M s _), ?_, ?_⟩
      · rw [List.range'_succ]
        simp only [fastLoop, ha, hb, setIdx, if_pos hsM]
        exact hrun
      · intro j hj
        have hne : s ≠ j := by omega
        rw [hout j (by omega)]
        simp [List.getD_eq_getElem?_getD, List.getElem?_set_ne hne]
      · intro j h1 h2
        rcases eq_or_lt_of_le h1 with rfl | hlt
        · rw [hout s (Or.inl (by omega))]
          simp [List.getD_eq_getElem?_getD, List.getElem?_set_self hsM]
        · exact hin j (by omega) (by omega)

/-- Running the fast-mode loop over `[s, s+n)` hits an out-of-range row of
`A` (an `IndexError`) as soon as `A` is shorter than that range, provided
`B` covers the whole range. -/
theorem fastLoop_range_fail (kernel : List ℝ → List ℝ → ℝ)
    (A B : List (List ℝ)) (n : ℕ) :
    ∀ (s : ℕ) (M : List ℝ), M.length = A.length → A.length < B.length →
      s + n = B.length → s ≤ A.length →
      fastLoop kernel A B (List.range' s n) M = none := by
  induction n with
  | zero => intro s M h1 h2 h3 h4; omega
  | succ n ih =>
      intro s M h1 h2 h3 h4
      rw [List.range'_succ]
      rcases eq_or_lt_of_le h4 with heq | hlt
      · have ha : A.get? s = none := by
          simp only [List.get?_eq_getElem?, List.getElem?_eq_none_iff]
          omega
        simp only [fastLoop, ha]
      · have ha : A.get? s = some (A.getD s []) := by
          simp [List.getD_eq_getElem?_getD, List.getElem?_eq_getElem hlt]
        have hsB : s < B.length := by omega
        have hb : B.get? s = some (B.getD s []) := by
          simp [List.getD_eq_getElem?_getD, List.getElem?_eq_getElem hsB]
        have hsM : s < M.length := by omega
        simp only [fastLoop, ha, hb, setIdx, if_pos hsM]
        exact ih (s + 1) _ (by simp [h1]) h2 (by omega) (by omega)

/-! ### Elementwise behaviour of the bulk acquisition functions on finite
inputs -/

/-- One entry of `full_EI` on finite inputs: the pre-filled `0.0` where the
variance is not positive (including a negative variance, whose square root
is NaN and fails the mask), the EI formula where it is. -/
theorem full_EI_head (Φ φ : ℝ → ℝ) (y m v : ℝ) :
    (if ((FVal.fin v).sqrt).gtZero then
        (((FVal.fin m).sub (FVal.fin y)).mul
            (FVal.cdf Φ
              (((FVal.fin m).sub (FVal.fin y)).div ((FVal.fin v).sqrt)))).add
          (((FVal.fin v).sqrt).mul
            (FVal.pdf φ
              (((FVal.fin m).sub (FVal.fin y)).div ((FVal.fin v).sqrt))))
      else FVal.fin 0)
      = if 0 < v then
          FVal.fin ((m - y) * Φ ((m - y) / Real.sqrt v)
            + Real.sqrt v * φ ((m - y) / Real.sqrt v))
        else FVal.fin 0 := by
  rcases lt_trichotomy v 0 with hv | rfl | hv
  · simp [FVal.sqrt, FVal.gtZero, hv, hv.asymm]
  · simp [FVal.sqrt, FVal.gtZero]
  · have hs : 0 < Real.sqrt v := Real.sqrt_pos.mpr hv
    simp [FVal.sqrt, FVal.gtZero, FVal.sub, FVal.div, FVal.mul, FVal.add,
      FVal.cdf, FVal.pdf, hv, hv.asymm, hs, hs.ne']

/-- `full_EI` on finite means/variances, elementwise. -/
theorem full_EI_map_fin (Φ φ : ℝ → ℝ) (y : ℝ) (mean var : List ℝ) :
    acquisition.full_EI Φ φ (FVal.fin y) (mean.map FVal.fin)
        (var.map FVal.fin)
      = List.zipWith (fun m v =>
          if 0 < v then
            FVal.fin ((m - y) * Φ ((m - y) / Real.sqrt v)
              + Real.sqrt v * φ ((m - y) / Real.sqrt v))
          else FVal.fin 0) mean var := by
  induction mean generalizing var with
  | nil => simp [acquisition.full_EI]
  | cons m mean ih =>
      cases var with
      | nil => simp [acquisition.full_EI]
      | cons v var =>
          simp only [acquisition.full_EI] at ih ⊢
          simp only [List.map_cons, List.zip_cons_cons, List.zipWith_cons_cons]
          rw [ih]
          congr 1
          exact full_EI_head Φ φ y m v

/-- One entry of `full_PoI` on finite inputs: the unguarded division gives
the CDF value where the variance is positive; at variance `0` it gives
`cdf(±inf)` — that is `1` or `0` — by the sign of `mean − ymax`, and
`cdf(0/0) = NaN` when `mean = ymax`; at negative variance `sqrt` is NaN and
so is the score. -/
theorem full_PoI_head (Φ : ℝ → ℝ) (y m v : ℝ) :
    FVal.cdf Φ (((FVal.fin m).sub (FVal.fin y)).div ((FVal.fin v).sqrt))
      = if 0 < v then FVal.fin (Φ ((m - y) / Real.sqrt v))
        else if v < 0 then FVal.nan
        else if 0 < m - y then FVal.fin 1
        else if m - y < 0 then FVal.fin 0
        else FVal.nan := by
  rcases lt_trichotomy v 0 with hv | rfl | hv
  · simp [FVal.sqrt, FVal.sub, FVal.div, FVal.cdf, hv, hv.asymm]
  · simp only [FVal.sqrt, FVal.sub, FVal.div]
    norm_num
    rcases lt_trichotomy y m with h1 | rfl | h1
    · simp [FVal.cdf, h1, h1.asymm]
    · simp [FVal.cdf]
    · simp [FVal.cdf, h1, h1.asymm]
  · have hs : 0 < Real.sqrt v := Real.sqrt_pos.mpr hv
    simp [FVal.sqrt, FVal.sub, FVal.div, FVal.cdf, hv, hv.asymm, hs.ne']

/-- `full_PoI` on finite means/variances, elementwise. -/
theorem full_PoI_map_fin (Φ : ℝ → ℝ) (y : ℝ) (mean var : List ℝ) :
    acquisition.full_PoI Φ (FVal.fin y) (mean.map FVal.fin)
        (var.map FVal.fin)
      = List.zipWith (fun m v =>
          if 0 < v then FVal.fin (Φ ((m - y) / Real.sqrt v))
          else if v < 0 then FVal.nan
          else if 0 < m - y then FVal.fin 1
          else if m - y < 0 then FVal.fin 0
          else FVal.nan) mean var := by
  induction mean generalizing var with
  | nil => simp [acquisition.full_PoI]
  | cons m mean ih =>
      cases var with
      | nil => simp [acquisition.full_PoI]
      | cons v var =>
          simp only [acquisition.full_PoI] at ih ⊢
          simp only [List.map_cons, List.zip_cons_cons, List.zipWith_cons_cons]
          rw [ih]
          congr 1
          exact full_PoI_head Φ y m v

/-! ## Claim theorems -/

/-- C1: on finite inputs with nonnegative variances, `full_EI` returns a
vector of the same length as `mean` in which every zero-variance index
holds exactly `0`, every positive-variance index holds the EI formula
`(mean_i − ymax)·Φ(Z_i) + √variance_i·φ(Z_i)` with
`Z_i = (mean_i − ymax)/√variance_i`, and every entry is a finite real
(never NaN or ±inf). -/
theorem full_EI_robust (Φ φ : ℝ → ℝ) (y : ℝ) (mean var : List ℝ)
    (hlen : mean.length = var.length) (hvar : ∀ v ∈ var, 0 ≤ v)
    (i : ℕ) (hi : i < mean.length) :
    (acquisition.full_EI Φ φ (FVal.fin y) (mean.map FVal.fin)
        (var.map FVal.fin)).length = mean.length ∧
    (var.getD i 0 = 0 →
      (acquisition.full_EI Φ φ (FVal.fin y) (mean.map FVal.fin)
          (var.map FVal.fin)).getD i FVal.nan = FVal.fin 0) ∧
    (0 < var.getD i 0 →
      (acquisition.full_EI Φ φ (FVal.fin y) (mean.map FVal.fin)
          (var.map FVal.fin)).getD i FVal.nan
        = FVal.fin ((mean.getD i 0 - y)
              * Φ ((mean.getD i 0 - y) / Real.sqrt (var.getD i 0))
            + Real.sqrt (var.getD i 0)
              * φ ((mean.getD i 0 - y) / Real.sqrt (var.getD i 0)))) ∧
    (∃ x : ℝ, (acquisition.full_EI Φ φ (FVal.fin y) (mean.map FVal.fin)
        (var.map FVal.fin)).getD i FVal.nan = FVal.fin x) := by
  rw [full_EI_map_fin]
  have hvi : i < var.length := hlen ▸ hi
  refine ⟨by simp [hlen], ?_, ?_, ?_⟩
  · intro h0
    rw [List.getD_eq_getElem var 0 hvi] at h0
    simp [List.getD_eq_getElem?_getD, List.getElem?_zipWith,
      List.getElem?_eq_getElem hi, List.getElem?_eq_getElem hvi, h0]
  · intro h0
    rw [List.getD_eq_getElem var 0 hvi] at h0
    simp [List.getD_eq_getElem?_getD, List.getElem?_zipWith,
      List.getElem?_eq_getElem hi, List.getElem?_eq_getElem hvi, h0]
  · by_cases h0 : 0 < var[i]
    · refine ⟨(mean[i] - y) * Φ ((mean[i] - y) / Real.sqrt var[i])
          + Real.sqrt var[i] * φ ((mean[i] - y) / Real.sqrt var[i]), ?_⟩
      simp [List.getD_eq_getElem?_getD, List.getElem?_zipWith,
        List.getElem?_eq_getElem hi, List.getElem?_eq_getElem hvi, h0]
    · refine ⟨0, ?_⟩
      simp [List.getD_eq_getElem?_getD, List.getElem?_zipWith,
        List.getElem?_eq_getElem hi, List.getElem?_eq_getElem hvi, h0]

/-- C1 witness: `mean = [5, 5]`, `variance = [0, 4]`, `ymax = 4`, index 1
(the spec's bulk-EI example), with `Φ = φ = id`. -/
theorem full_EI_robust_witness :
    ([5, 5] : List ℝ).length = ([0, 4] : List ℝ).length ∧
    (∀ v ∈ ([0, 4] : List ℝ), 0 ≤ v) ∧
    1 < ([5, 5] : List ℝ).length ∧
    ((acquisition.full_EI (fun z => z) (fun z => z) (FVal.fin 4)
        (([5, 5] : List ℝ).map FVal.fin)
        (([0, 4] : List ℝ).map FVal.fin)).length
        = ([5, 5] : List ℝ).length ∧
    (([0, 4] : List ℝ).getD 1 0 = 0 →
      (acquisition.full_EI (fun z => z) (fun z => z) (FVal.fin 4)
          (([5, 5] : List ℝ).map FVal.fin)
          (([0, 4] : List ℝ).map FVal.fin)).getD 1 FVal.nan = FVal.fin 0) ∧
    (0 < ([0, 4] : List ℝ).getD 1 0 →
      (acquisition.full_EI (fun z => z) (fun z => z) (FVal.fin 4)
          (([5, 5] : List ℝ).map FVal.fin)
          (([0, 4] : List ℝ).map FVal.fin)).getD 1 FVal.nan
        = FVal.fin ((([5, 5] : List ℝ).getD 1 0 - 4)
              * (fun z => z) ((([5, 5] : List ℝ).getD 1 0 - 4)
                  / Real.sqrt (([0, 4] : List ℝ).getD 1 0))
            + Real.sqrt (([0, 4] : List ℝ).getD 1 0)
              * (fun z => z) ((([5, 5] : List ℝ).getD 1 0 - 4)
                  / Real.sqrt (([0, 4] : List ℝ).getD 1 0)))) ∧
    (∃ x : ℝ, (acquisition.full_EI (fun z => z) (fun z => z) (FVal.fin 4)
        (([5, 5] : List ℝ).map FVal.fin)
        (([0, 4] : List ℝ).map FVal.fin)).getD 1 FVal.nan = FVal.fin x)) :=
  ⟨rfl, by norm_num, by norm_num,
    full_EI_robust (fun z => z) (fun z => z) 4 [5, 5] [0, 4] rfl
      (by norm_num) 1 (by norm_num)⟩

/-- C2 counterexample: `full_PoI` with `mean = [4]`, `variance = [0]`,
`ymax = 4` — a zero-variance index where `mean_i = ymax` — yields
`cdf(0/0) = NaN`, which is neither `0` nor `1`, refuting the claim that a
zero-variance score is always well-defined as `0` or `1` by the sign of
`mean_i − ymax`. -/
theorem full_PoI_zero_variance_cex :
    acquisition.full_PoI (fun z => z) (FVal.fin 4)
        [FVal.fin 4] [FVal.fin 0] = [FVal.nan] ∧
    FVal.nan ≠ FVal.fin 0 ∧ FVal.nan ≠ FVal.fin 1 := by
  refine ⟨?_, by simp, by simp⟩
  show acquisition.full_PoI (fun z => z) (FVal.fin 4)
      (([4] : List ℝ).map FVal.fin) (([0] : List ℝ).map FVal.fin) = [FVal.nan]
  rw [full_PoI_map_fin]
  norm_num

/-- C2 amended: at a zero-variance index, `full_PoI` divides by
`sqrt(0) = 0` unconditionally, producing a non-finite Z-score, and the
score there is `1` when `mean_i > ymax`, `0` when `mean_i < ymax`, and NaN
(not a well-defined 0-or-1 value) when `mean_i = ymax`. -/
theorem full_PoI_zero_variance (Φ : ℝ → ℝ) (y : ℝ) (mean var : List ℝ)
    (hlen : mean.length = var.length) (i : ℕ) (hi : i < mean.length)
    (h0 : var.getD i 0 = 0) :
    (acquisition.full_PoI Φ (FVal.fin y) (mean.map FVal.fin)
        (var.map FVal.fin)).length = mean.length ∧
    (acquisition.full_PoI Φ (FVal.fin y) (mean.map FVal.fin)
        (var.map FVal.fin)).getD i FVal.nan
      = if y < mean.getD i 0 then FVal.fin 1
        else if mean.getD i 0 < y then FVal.fin 0
        else FVal.nan := by
  rw [full_PoI_map_fin]
  have hvi : i < var.length := hlen ▸ hi
  constructor
  · simp [hlen]
  · rw [List.getD_eq_getElem var 0 hvi] at h0
    simp only [List.getD_eq_getElem?_getD, List.getElem?_zipWith,
      List.getElem?_eq_getElem hi, List.getElem?_eq_getElem hvi, h0]
    norm_num [sub_pos, sub_neg]

/-- C2 witness (for the amended claim): `mean = [5]`, `variance = [0]`,
`ymax = 4`, index 0 (the score there is `cdf(+inf) = 1`). -/
theorem full_PoI_zero_variance_witness :
    ([5] : List ℝ).length = ([0] : List ℝ).length ∧
    0 < ([5] : List ℝ).length ∧
    ([0] : List ℝ).getD 0 0 = 0 ∧
    ((acquisition.full_PoI (fun z => z) (FVal.fin 4)
        (([5] : List ℝ).map FVal.fin)
        (([0] : List ℝ).map FVal.fin)).length = ([5] : List ℝ).length ∧
    (acquisition.full_PoI (fun z => z) (FVal.fin 4)
        (([5] : List ℝ).map FVal.fin)
        (([0] : List ℝ).map FVal.fin)).getD 0 FVal.nan
      = if (4 : ℝ) < ([5] : List ℝ).getD 0 0 then FVal.fin 1
        else if ([5] : List ℝ).getD 0 0 < 4 then FVal.fin 0
        else FVal.nan) :=
  ⟨rfl, by norm_num, by norm_num,
    full_PoI_zero_variance (fun z => z) 4 [5] [0] rfl 0 (by norm_num)
      (by norm_num)⟩

/-- C4: full-mode `covariance` (after reshaping a bare 1-D input to a
one-row matrix) returns an N×M matrix whose entry `(i, j)` is
`kernel(A_i, B_j)`, also when N ≠ M. -/
theorem covariance_full_entries (X1 X2 : NpArr)
    (kernel : List ℝ → List ℝ → ℝ) (i j : ℕ)
    (hi : i < (normalize X1).length) (hj : j < (normalize X2).length) :
    ∃ M, covariance X1 X2 kernel false = some (NpArr.mat M) ∧
      M.length = (normalize X1).length ∧
      (∀ r ∈ M, r.length = (normalize X2).length) ∧
      (M.getD i []).getD j 0
        = kernel ((normalize X1).getD i []) ((normalize X2).getD j []) := by
  refine ⟨(normalize X1).map (fun a => (normalize X2).map fun b => kernel a b),
    by simp [covariance], by simp, ?_, ?_⟩
  · intro r hr
    obtain ⟨a, _, rfl⟩ := List.mem_map.mp hr
    simp
  · simp [List.getD_eq_getElem?_getD, List.getElem?_map,
      List.getElem?_eq_getElem hi, List.getElem?_eq_getElem hj]

/-- C4 witness: a bare 1-D first argument (one 2-dimensional point), a 3×2
second argument, and the linear kernel, at entry `(0, 2)`. -/
theorem covariance_full_entries_witness :
    0 < (normalize (NpArr.vec [1, 2])).length ∧
    2 < (normalize (NpArr.mat [[3, 4], [5, 6], [7, 8]])).length ∧
    (∃ M, covariance (NpArr.vec [1, 2]) (NpArr.mat [[3, 4], [5, 6], [7, 8]])
        (kernels.trivial 1) false = some (NpArr.mat M) ∧
      M.length = (normalize (NpArr.vec [1, 2])).length ∧
      (∀ r ∈ M,
        r.length = (normalize (NpArr.mat [[3, 4], [5, 6], [7, 8]])).length) ∧
      (M.getD 0 []).getD 2 0
        = kernels.trivial 1 ((normalize (NpArr.vec [1, 2])).getD 0 [])
            ((normalize (NpArr.mat [[3, 4], [5, 6], [7, 8]])).getD 2 [])) :=
  ⟨by simp [normalize], by simp [normalize],
    covariance_full_entries (NpArr.vec [1, 2])
      (NpArr.mat [[3, 4], [5, 6], [7, 8]]) (kernels.trivial 1) 0 2
      (by simp [normalize]) (by simp [normalize])⟩

/-- C5: fast-mode `covariance` on `(A, A)` returns a length-N vector whose
entry `i` is `kernel(A_i, A_i)`, which is the `(i, i)` entry — the
diagonal — of the matrix full mode produces on `(A, A)`. -/
theorem covariance_fast_diag (X : NpArr) (kernel : List ℝ → List ℝ → ℝ)
    (i : ℕ) (hi : i < (normalize X).length) :
    ∃ v, covariance X X kernel true = some (NpArr.vec v) ∧
      v.length = (normalize X).length ∧
      v.getD i 0 = kernel ((normalize X).getD i []) ((normalize X).getD i []) ∧
      ∃ M, covariance X X kernel false = some (NpArr.mat M) ∧
        v.getD i 0 = (M.getD i []).getD i 0 := by
  obtain ⟨M2, hrun, hlen, hout, hin⟩ :=
    fastLoop_range_ok kernel (normalize X) (normalize X) (normalize X).length 0
      (List.replicate (normalize X).length 0) (by omega) (by omega) (by simp)
  refine ⟨M2, ?_, ?_, hin i (by omega) (by omega), ?_⟩
  · simp only [covariance, if_pos rfl, List.range_eq_range']
    rw [hrun]
    rfl
  · rw [hlen]; simp
  · refine ⟨(normalize X).map (fun a => (normalize X).map fun b => kernel a b),
      by simp [covariance], ?_⟩
    rw [hin i (by omega) (by omega)]
    simp [List.getD_eq_getElem?_getD, List.getElem?_map,
      List.getElem?_eq_getElem hi]

/-- C5 witness: the two-point set `[[1], [2]]` with the linear kernel, at
index 1. -/
theorem covariance_fast_diag_witness :
    1 < (normalize (NpArr.mat [[1], [2]])).length ∧
    (∃ v, covariance (NpArr.mat [[1], [2]]) (NpArr.mat [[1], [2]])
        (kernels.trivial 1) true = some (NpArr.vec v) ∧
      v.length = (normalize (NpArr.mat [[1], [2]])).length ∧
      v.getD 1 0 = kernels.trivial 1
          ((normalize (NpArr.mat [[1], [2]])).getD 1 [])
          ((normalize (NpArr.mat [[1], [2]])).getD 1 []) ∧
      ∃ M, covariance (NpArr.mat [[1], [2]]) (NpArr.mat [[1], [2]])
          (kernels.trivial 1) false = some (NpArr.mat M) ∧
        v.getD 1 0 = (M.getD 1 []).getD 1 0) :=
  ⟨by simp [normalize],
    covariance_fast_diag (NpArr.mat [[1], [2]]) (kernels.trivial 1) 1
      (by simp [normalize])⟩

/-- C9 counterexample: fast mode with `len(A) = 2 ≠ 1 = len(B)` does NOT
fail — it silently returns the length-2 vector `[kernel(A_0, B_0), 0]`,
refuting the claim that any fast-mode length mismatch propagates as an
index failure. -/
theorem covariance_fast_mismatch_cex :
    covariance (NpArr.mat [[1], [2]]) (NpArr.mat [[3]])
      (kernels.trivial 1) true = some (NpArr.vec [3, 0]) := by
  simp only [covariance, normalize, if_pos rfl]
  norm_num [fastLoop, setIdx, kernels.trivial, dot, List.range_succ,
    List.replicate_succ]

/-- C9 amended: fast mode with `len(A) ≠ len(B)` raises an index failure
precisely when `len(B) > len(A)`; when `len(B) < len(A)` it returns
normally a length-`len(A)` vector whose first `len(B)` entries are the
elementwise kernel values and whose remaining entries are the `0.0`
pre-fill. -/
theorem covariance_fast_mismatch (X1 X2 : NpArr)
    (kernel : List ℝ → List ℝ → ℝ)
    (hne : (normalize X1).length ≠ (normalize X2).length) :
    ((normalize X1).length < (normalize X2).length →
      covariance X1 X2 kernel true = none) ∧
    ((normalize X2).length < (normalize X1).length →
      ∃ v, covariance X1 X2 kernel true = some (NpArr.vec v) ∧
        v.length = (normalize X1).length ∧
        (∀ j, j < (normalize X2).length →
          v.getD j 0
            = kernel ((normalize X1).getD j []) ((normalize X2).getD j [])) ∧
        (∀ j, (normalize X2).length ≤ j → v.getD j 0 = 0)) := by
  constructor
  · intro hlt
    have hfail := fastLoop_range_fail kernel (normalize X1) (normalize X2)
      (normalize X2).length 0 (List.replicate (normalize X1).length 0)
      (by simp) hlt (by omega) (by omega)
    simp only [covariance, if_pos rfl, List.range_eq_range']
    rw [hfail]
    rfl
  · intro hlt
    obtain ⟨M2, hrun, hlen, hout, hin⟩ :=
      fastLoop_range_ok kernel (normalize X1) (normalize X2)
        (normalize X2).length 0 (List.replicate (normalize X1).length 0)
        (by omega) (by omega) (by simp; omega)
    refine ⟨M2, ?_, ?_, ?_, ?_⟩
    · simp only [covariance, if_pos rfl, List.range_eq_range']
      rw [hrun]
      rfl
    · rw [hlen]; simp
    · intro j hj
      exact hin j (by omega) (by omega)
    · intro j hj
      rw [hout j (by omega)]
      simp [List.getD_eq_getElem?_getD]

/-- C9 witness (for the amended claim): `A = [[1], [2]]`, `B = [[3]]` with
the linear kernel. -/
theorem covariance_fast_mismatch_witness :
    (normalize (NpArr.mat [[1], [2]])).length
        ≠ (normalize (NpArr.mat [[3]])).length ∧
    (((normalize (NpArr.mat [[1], [2]])).length
          < (normalize (NpArr.mat [[3]])).length →
        covariance (NpArr.mat [[1], [2]]) (NpArr.mat [[3]])
          (kernels.trivial 1) true = none) ∧
      ((normalize (NpArr.mat [[3]])).length
          < (normalize (NpArr.mat [[1], [2]])).length →
        ∃ v, covariance (NpArr.mat [[1], [2]]) (NpArr.mat [[3]])
            (kernels.trivial 1) true = some (NpArr.vec v) ∧
          v.length = (normalize (NpArr.mat [[1], [2]])).length ∧
          (∀ j, j < (normalize (NpArr.mat [[3]])).length →
            v.getD j 0 = kernels.trivial 1
                ((normalize (NpArr.mat [[1], [2]])).getD j [])
                ((normalize (NpArr.mat [[3]])).getD j [])) ∧
          (∀ j, (normalize (NpArr.mat [[3]])).length ≤ j →
            v.getD j 0 = 0))) :=
  ⟨by simp [normalize],
    covariance_fast_mismatch (NpArr.mat [[1], [2]]) (NpArr.mat [[3]])
      (kernels.trivial 1) (by simp [normalize])⟩

/-- C6: for equal-dimension points, `squared_exp(x1, x2)` is exactly
`t² · exp(−‖x1−x2‖² / (2·l²))` (with `‖x1−x2‖²` the sum of squared
coordinate differences); in particular with `t = 1`, `l = 1`,
`squared_exp([0,0],[0,0]) = 1` and `squared_exp([0,0],[1,0]) = exp(−1/2)`. -/
theorem squared_exp_formula (t l : ℝ) (x1 x2 : List ℝ)
    (h : x1.length = x2.length) :
    kernels.squared_exp t l x1 x2
      = t ^ 2 * Real.exp
          (-(List.zipWith (fun a b => (a - b) ^ 2) x1 x2).sum / (2 * l ^ 2)) ∧
    kernels.squared_exp 1 1 [0, 0] [0, 0] = 1 ∧
    kernels.squared_exp 1 1 [0, 0] [1, 0] = Real.exp (-(1 / 2)) := by
  refine ⟨?_, ?_, ?_⟩
  · rw [kernels.squared_exp, dot_self_eq_sum_sq, vsub, List.map_zipWith]
  · simp [kernels.squared_exp, dot_vsub_self]
  · rw [kernels.squared_exp, dot_self_eq_sum_sq, vsub]
    norm_num

/-- C6 witness: the statement at `t = 1`, `l = 1`, `x1 = [0,0]`,
`x2 = [1,0]`. -/
theorem squared_exp_formula_witness :
    ([0, 0] : List ℝ).length = ([1, 0] : List ℝ).length ∧
    (kernels.squared_exp 1 1 [0, 0] [1, 0]
        = 1 ^ 2 * Real.exp
            (-(List.zipWith (fun a b => (a - b) ^ 2)
                ([0, 0] : List ℝ) [1, 0]).sum / (2 * 1 ^ 2)) ∧
      kernels.squared_exp 1 1 [0, 0] [0, 0] = 1 ∧
      kernels.squared_exp 1 1 [0, 0] [1, 0] = Real.exp (-(1 / 2))) :=
  ⟨rfl, squared_exp_formula 1 1 [0, 0] [1, 0] rfl⟩

/-- C7: at identical arguments every kernel evaluates to the output-scale
squared: `squared_exp(x, x) = t²` and `ARD_matern(x, x) = t²`. -/
theorem kernel_self_similarity (t l : ℝ) (x : List ℝ) :
    kernels.squared_exp t l x x = t ^ 2 ∧
    kernels.ARD_matern t l x x = t ^ 2 := by
  constructor
  · simp [kernels.squared_exp, dot_vsub_self]
  · simp [kernels.ARD_matern, dot_vsub_self]

/-- C8 counterexample: the `trivial` kernel returns a negative value at
`t = 1`, `x1 = [1]`, `x2 = [-1]` (its value there is `1·(1·(−1)) = −1`),
so not every kernel of the library is nonnegative. -/
theorem trivial_kernel_negative :
    kernels.trivial 1 [1] [-1] = -1 ∧ kernels.trivial 1 [1] [-1] < 0 := by
  constructor <;> norm_num [kernels.trivial, dot]

/-- C8 amended: `squared_exp` and `ARD_matern` always return nonnegative
values (for all scale parameters and points); the linear `trivial` kernel
does not share this property. -/
theorem kernels_nonneg (t l : ℝ) (x1 x2 : List ℝ) :
    0 ≤ kernels.squared_exp t l x1 x2 ∧
    0 ≤ kernels.ARD_matern t l x1 x2 := by
  constructor
  · rw [kernels.squared_exp]; positivity
  · rw [kernels.ARD_matern]
    have hr2 : 0 ≤ dot (vsub x1 x2) (vsub x1 x2) / l ^ 2 :=
      div_nonneg (dot_self_nonneg _) (by positivity)
    have h1 : 0 ≤ 1 + Real.sqrt (5 * (dot (vsub x1 x2) (vsub x1 x2) / l ^ 2))
        + 5 / 3 * (dot (vsub x1 x2) (vsub x1 x2) / l ^ 2) := by
      nlinarith [Real.sqrt_nonneg (5 * (dot (vsub x1 x2) (vsub x1 x2) / l ^ 2))]
    exact mul_nonneg (mul_nonneg (sq_nonneg t) h1) (Real.exp_pos _).le

/-- C3: when the GP's `sample_predict` reports variance exactly `0` at `x`,
single-point `EI` returns exactly `0` and single-point `PoI` returns exactly
`1`, for every mean and every `ymax`. -/
theorem single_point_zero_variance {α : Type} (Φ φ : ℝ → ℝ) (x : α)
    (gp : α → ℝ × ℝ) (ymax : ℝ) (h : (gp x).2 = 0) :
    acquisition.EI Φ φ x gp ymax = 0 ∧ acquisition.PoI Φ x gp ymax = 1 := by
  constructor
  · rw [acquisition.EI, if_pos h]
  · rw [acquisition.PoI, if_pos h]

/-- C3 witness: a GP reporting `(mean, var) = (3, 0)` at the (unit) point,
with `ymax = 7`. -/
theorem single_point_zero_variance_witness :
    ((fun _ : Unit => ((3 : ℝ), (0 : ℝ))) ()).2 = 0 ∧
    (acquisition.EI (fun z => z) (fun z => z) ()
        (fun _ : Unit => ((3 : ℝ), (0 : ℝ))) 7 = 0 ∧
      acquisition.PoI (fun z => z) ()
        (fun _ : Unit => ((3 : ℝ), (0 : ℝ))) 7 = 1) :=
  ⟨rfl, single_point_zero_variance (fun z => z) (fun z => z) ()
    (fun _ => ((3 : ℝ), (0 : ℝ))) 7 rfl⟩

/-- C10: `UCB` never reads its `ymax` argument: its value is the same for
any two `ymax` values, and always equals `mean + κ·sqrt(variance)` for the
`(mean, variance)` the GP reports at `x`. -/
theorem UCB_ignores_ymax {α : Type} (kappa : ℝ) (x : α) (gp : α → ℝ × ℝ)
    (ymax1 ymax2 : ℝ) :
    acquisition.UCB kappa x gp ymax1 = acquisition.UCB kappa x gp ymax2 ∧
    acquisition.UCB kappa x gp ymax1
      = (gp x).1 + kappa * Real.sqrt (gp x).2 :=
  ⟨rfl, rfl⟩

end BayesOpt
